import Mathlib

/-!
Verification development for the Zero-of-Functions (ZOF) solver.

The repository implements six classical root-finding methods (bisection,
regula falsi, secant, Newton-Raphson, fixed-point iteration, modified
secant) twice with identical algorithmic logic: once in `app.py` (Flask
front end) and once in `ZOF_CLI.py` (terminal front end).  Both share the
same loop shape: `for i in range(1, max_iter + 1)` computes the step data,
appends one iteration record, returns a result dict when
`error < tol or abs(f_candidate) < tol`, otherwise updates the state; after
the loop a "Maximum iterations reached" error is raised.  Guard failures
(`abs(denominator) < 1e-14`) raise before the record is appended.

The embedding models numeric values as rationals (`ℚ`): IEEE doubles are a
finite subset of ℚ and none of the verified claims depends on rounding.
The six near-identical Python loop bodies are factored through one generic
loop `runLoop` driven by a per-method `pass` function; each instantiation
mirrors its Python loop body line by line.  The user expression is
abstracted as the real-valued function `f : ℚ → ℚ` it denotes; expression
text and the `safe_eval` namespace are modelled separately (`Expr`,
`evalE`) where a claim is about evaluation itself.
-/

namespace ZOF

/-- The error kinds a solver call can surface, per the Python sources:
`precondition` is bisection's "f(a) and f(b) must have opposite signs";
`singularity` is the `abs(denominator) < 1e-14` guard raise in secant,
Newton-Raphson and modified secant; `zeroDivision` is Python's raw
`ZeroDivisionError` from an unguarded float division (regula falsi);
`maxIterations` is "Maximum iterations reached without convergence". -/
inductive SolveError where
  | precondition
  | singularity
  | zeroDivision
  | maxIterations
deriving DecidableEq, Repr

/-- One bisection iteration record: dict keys `iteration, a, b, c, fc, error`
(`app.py` stores decimal-formatted strings of these numbers; the numeric
values are modelled, as in `ZOF_CLI.py`). -/
structure BisectionRecord where
  iteration : ℕ
  a : ℚ
  b : ℚ
  c : ℚ
  fc : ℚ
  error : ℚ
deriving DecidableEq, Repr

/-- One regula-falsi iteration record: keys `iteration, a, b, c, fc, error`. -/
structure RegulaRecord where
  iteration : ℕ
  a : ℚ
  b : ℚ
  c : ℚ
  fc : ℚ
  error : ℚ
deriving DecidableEq, Repr

/-- One secant iteration record: keys `iteration, x0, x1, f1, error`. -/
structure SecantRecord where
  iteration : ℕ
  x0 : ℚ
  x1 : ℚ
  f1 : ℚ
  error : ℚ
deriving DecidableEq, Repr

/-- One Newton-Raphson iteration record: keys `iteration, x, fx, fpx, error`. -/
structure NewtonRecord where
  iteration : ℕ
  x : ℚ
  fx : ℚ
  fpx : ℚ
  error : ℚ
deriving DecidableEq, Repr

/-- One fixed-point iteration record: keys `iteration, x, gx, fx, error`. -/
structure FixedPointRecord where
  iteration : ℕ
  x : ℚ
  gx : ℚ
  fx : ℚ
  error : ℚ
deriving DecidableEq, Repr

/-- One modified-secant iteration record: keys `iteration, x, fx, fx_delta, error`. -/
structure ModifiedSecantRecord where
  iteration : ℕ
  x : ℚ
  fx : ℚ
  fx_delta : ℚ
  error : ℚ
deriving DecidableEq, Repr

/-- The result dict returned on convergence: keys
`root, iterations, total_iterations, final_error, fx`. -/
structure SolveResult (ρ : Type) where
  root : ℚ
  iterations : List ρ
  total_iterations : ℕ
  final_error : ℚ
  fx : ℚ
deriving DecidableEq, Repr

/-- The data one loop pass produces, before the shared convergence check:
the iteration record to append, the error estimate `err`, the function
value `check` whose absolute value the stopping rule compares with the
tolerance, the `root` and `fx` fields that would go into the result if the
pass converges, and the updated loop state `next`. -/
structure PassData (σ ρ : Type) where
  record : ρ
  err : ℚ
  check : ℚ
  root : ℚ
  fxOut : ℚ
  next : σ
deriving DecidableEq, Repr

/-- The loop shared by all six Python method bodies:
`for i in range(1, max_iter + 1)` runs the pass (which may raise a guard
error), appends the record, returns the result dict when
`error < tol or abs(check) < tol`, else continues with the updated state;
an exhausted range raises "Maximum iterations reached without convergence".
`fuel` is the number of remaining passes and `i` the 1-based index of the
next pass. -/
def runLoop {σ ρ : Type} (pass : ℕ → σ → Except SolveError (PassData σ ρ))
    (tol : ℚ) : ℕ → ℕ → σ → List ρ → Except SolveError (SolveResult ρ)
  | 0, _, _, _ => .error .maxIterations
  | fuel + 1, i, s, acc =>
    match pass i s with
    | .error e => .error e
    | .ok p =>
      if p.err < tol ∨ |p.check| < tol then
        .ok ⟨p.root, acc ++ [p.record], i, p.err, p.fxOut⟩
      else
        runLoop pass tol fuel (i + 1) p.next (acc ++ [p.record])

/-- Outcome of the `k`-th pass (0-based offset from index `i`) when the
loop is started at state `s`: the pass data if passes `0..k` all run
without a guard error, the first guard error otherwise. -/
def passAt {σ ρ : Type} (pass : ℕ → σ → Except SolveError (PassData σ ρ)) :
    ℕ → σ → ℕ → Except SolveError (PassData σ ρ)
  | i, s, 0 => pass i s
  | i, s, k + 1 =>
    match pass i s with
    | .ok p => passAt pass (i + 1) p.next k
    | .error e => .error e

/-- Loop state seen by the `k`-th pass (0-based offset from index `i`). -/
def stateAt {σ ρ : Type} (pass : ℕ → σ → Except SolveError (PassData σ ρ)) :
    ℕ → σ → ℕ → Except SolveError σ
  | _, s, 0 => .ok s
  | i, s, k + 1 =>
    match pass i s with
    | .ok p => stateAt pass (i + 1) p.next k
    | .error e => .error e

/-- The first `n` passes all run without a guard error and none of them
satisfies the stopping rule `err < tol ∨ |check| < tol`. -/
def noConvUpTo {σ ρ : Type} (pass : ℕ → σ → Except SolveError (PassData σ ρ))
    (tol : ℚ) (i : ℕ) (s : σ) (n : ℕ) : Prop :=
  ∀ j < n, ∃ p, passAt pass i s j = .ok p ∧ ¬(p.err < tol ∨ |p.check| < tol)

/-- Loop state of the bisection method: the bracket `a, b` and the cached
function values `fa = f(a)`, `fb = f(b)`. -/
structure BisectState where
  a : ℚ
  b : ℚ
  fa : ℚ
  fb : ℚ
deriving DecidableEq, Repr

/-- Loop state of regula falsi: the bracket `a, b` and the previous
candidate `cOld` (initially `a`). -/
structure RegulaState where
  a : ℚ
  b : ℚ
  cOld : ℚ
deriving DecidableEq, Repr

/-- Loop state of the secant method: the two current guesses. -/
structure SecantState where
  x0 : ℚ
  x1 : ℚ
deriving DecidableEq, Repr

/-- The near-zero denominator threshold `1e-14` used by the secant,
Newton-Raphson and modified secant guards. -/
def singularTol : ℚ := 1 / 10 ^ 14

/-- One pass of the bisection loop body (`app.py` lines 32-60):
`c = (a+b)/2`, `fc = f(c)`, `error = abs(b-a)/2`, record appended, return
on convergence with root `c` and `fx = fc`, else shrink the bracket to the
half on which the sign change persists. -/
def bisectPass (f : ℚ → ℚ) (i : ℕ) (s : BisectState) :
    Except SolveError (PassData BisectState BisectionRecord) :=
  let c := (s.a + s.b) / 2
  let fc := f c
  let e := |s.b - s.a| / 2
  .ok { record := ⟨i, s.a, s.b, c, fc, e⟩, err := e, check := fc,
        root := c, fxOut := fc,
        next := if s.fa * fc < 0 then ⟨s.a, c, s.fa, fc⟩ else ⟨c, s.b, fc, s.fb⟩ }

/-- `bisection_method(expr, a, b, tol, max_iter)` (`app.py` lines 23-62):
evaluates `fa`, `fb`, raises "f(a) and f(b) must have opposite signs" when
`fa * fb > 0`, then runs the loop from iteration 1. -/
def bisection_method (f : ℚ → ℚ) (a b tol : ℚ) (max_iter : ℕ) :
    Except SolveError (SolveResult BisectionRecord) :=
  let fa := f a
  let fb := f b
  if fa * fb > 0 then .error .precondition
  else runLoop (bisectPass f) tol max_iter 1 ⟨a, b, fa, fb⟩ []

/-- One pass of the regula falsi loop body (`app.py` lines 69-100):
`fa`, `fb` recomputed each pass, `c = (a*fb - b*fa)/(fb - fa)` with no
near-zero guard — a denominator equal to zero is Python's raw
`ZeroDivisionError`, modelled as `.error .zeroDivision` — then
`error = abs(c - c_old) if i > 1 else abs(b - a)`, record, convergence
check, endpoint replacement and `c_old = c`. -/
def regulaPass (f : ℚ → ℚ) (i : ℕ) (s : RegulaState) :
    Except SolveError (PassData RegulaState RegulaRecord) :=
  let fa := f s.a
  let fb := f s.b
  if fb - fa = 0 then .error .zeroDivision
  else
    let c := (s.a * fb - s.b * fa) / (fb - fa)
    let fc := f c
    let e := if 1 < i then |c - s.cOld| else |s.b - s.a|
    .ok { record := ⟨i, s.a, s.b, c, fc, e⟩, err := e, check := fc,
          root := c, fxOut := fc,
          next := if fa * fc < 0 then ⟨s.a, c, c⟩ else ⟨c, s.b, c⟩ }

/-- `regula_falsi_method(expr, a, b, tol, max_iter)` (`app.py` lines
64-102): no precondition check of any kind — the loop starts immediately
with `c_old = a`. -/
def regula_falsi_method (f : ℚ → ℚ) (a b tol : ℚ) (max_iter : ℕ) :
    Except SolveError (SolveResult RegulaRecord) :=
  runLoop (regulaPass f) tol max_iter 1 ⟨a, b, a⟩ []

/-- One pass of the secant loop body (`app.py` lines 108-135): the guard
`abs(f1 - f0) < 1e-14` raises "Division by zero in secant method" before
`x2` is computed; otherwise `x2 = x1 - f1*(x1-x0)/(f1-f0)`,
`error = abs(x2 - x1)`, record, convergence check against `abs(f1)`, and
on success the result's `fx` is `f(x2)`. -/
def secantPass (f : ℚ → ℚ) (i : ℕ) (s : SecantState) :
    Except SolveError (PassData SecantState SecantRecord) :=
  let f0 := f s.x0
  let f1 := f s.x1
  if |f1 - f0| < singularTol then .error .singularity
  else
    let x2 := s.x1 - f1 * (s.x1 - s.x0) / (f1 - f0)
    let e := |x2 - s.x1|
    .ok { record := ⟨i, s.x0, s.x1, f1, e⟩, err := e, check := f1,
          root := x2, fxOut := f x2, next := ⟨s.x1, x2⟩ }

/-- `secant_method(expr, x0, x1, tol, max_iter)` (`app.py` lines 104-137). -/
def secant_method (f : ℚ → ℚ) (x0 x1 tol : ℚ) (max_iter : ℕ) :
    Except SolveError (SolveResult SecantRecord) :=
  runLoop (secantPass f) tol max_iter 1 ⟨x0, x1⟩ []

/-- `derivative(expr, x_val, h=1e-7)` (`app.py` lines 19-21): the central
difference `(f(x+h) - f(x-h)) / (2h)`. -/
def derivative (f : ℚ → ℚ) (x : ℚ) (h : ℚ := 1 / 10 ^ 7) : ℚ :=
  (f (x + h) - f (x - h)) / (2 * h)

/-- One pass of the Newton-Raphson loop body (`app.py` lines 144-171):
`fpx` is the numerical derivative, the guard `abs(fpx) < 1e-14` raises
"Derivative too close to zero", then `x_new = x - fx/fpx`,
`error = abs(x_new - x)`, record, convergence check against `abs(fx)`,
and on success the result's `fx` field is `f(x_new)`. -/
def newtonPass (f : ℚ → ℚ) (i : ℕ) (x : ℚ) :
    Except SolveError (PassData ℚ NewtonRecord) :=
  let fx := f x
  let fpx := derivative f x
  if |fpx| < singularTol then .error .singularity
  else
    let xNew := x - fx / fpx
    let e := |xNew - x|
    .ok { record := ⟨i, x, fx, fpx, e⟩, err := e, check := fx,
          root := xNew, fxOut := f xNew, next := xNew }

/-- `newton_raphson_method(expr, x0, tol, max_iter)` (`app.py` lines 139-173). -/
def newton_raphson_method (f : ℚ → ℚ) (x0 tol : ℚ) (max_iter : ℕ) :
    Except SolveError (SolveResult NewtonRecord) :=
  runLoop (newtonPass f) tol max_iter 1 x0 []

/-- One pass of the fixed-point loop body (`app.py` lines 180-202):
`g_x = g(x)`, `fx = f(x)`, `error = abs(g_x - x)`, record, convergence
check against `abs(fx)`; on success the root is `g_x` and the result's
`fx` field is `f(g_x)`. No guard can raise. -/
def fixedPointPass (f g : ℚ → ℚ) (i : ℕ) (x : ℚ) :
    Except SolveError (PassData ℚ FixedPointRecord) :=
  let gx := g x
  let fx := f x
  let e := |gx - x|
  .ok { record := ⟨i, x, gx, fx, e⟩, err := e, check := fx,
        root := gx, fxOut := f gx, next := gx }

/-- `fixed_point_method(expr, g_expr, x0, tol, max_iter)` (`app.py` lines 175-204). -/
def fixed_point_method (f g : ℚ → ℚ) (x0 tol : ℚ) (max_iter : ℕ) :
    Except SolveError (SolveResult FixedPointRecord) :=
  runLoop (fixedPointPass f g) tol max_iter 1 x0 []

/-- One pass of the modified secant loop body (`app.py` lines 211-238):
`fx = f(x)`, `fx_delta = f(x + delta*x)`, the guard
`abs(fx_delta - fx) < 1e-14` raises "Division by zero in modified secant
method", then `x_new = x - fx*(delta*x)/(fx_delta - fx)`,
`error = abs(x_new - x)`, record, convergence check against `abs(fx)`. -/
def modSecantPass (f : ℚ → ℚ) (delta : ℚ) (i : ℕ) (x : ℚ) :
    Except SolveError (PassData ℚ ModifiedSecantRecord) :=
  let fx := f x
  let fxd := f (x + delta * x)
  if |fxd - fx| < singularTol then .error .singularity
  else
    let xNew := x - fx * (delta * x) / (fxd - fx)
    let e := |xNew - x|
    .ok { record := ⟨i, x, fx, fxd, e⟩, err := e, check := fx,
          root := xNew, fxOut := f xNew, next := xNew }

/-- `modified_secant_method(expr, x0, delta, tol, max_iter)` (`app.py`
lines 206-240). -/
def modified_secant_method (f : ℚ → ℚ) (x0 delta tol : ℚ) (max_iter : ℕ) :
    Except SolveError (SolveResult ModifiedSecantRecord) :=
  runLoop (modSecantPass f delta) tol max_iter 1 x0 []

/-- A result is produced at the first iteration satisfying the common
stopping rule: every earlier pass ran without converging, the pass at the
returned iteration satisfies `err < tol ∨ |check| < tol`, and the result's
`root`, `final_error` and `fx` fields come from that pass. -/
def firstConv {σ ρ : Type} (pass : ℕ → σ → Except SolveError (PassData σ ρ))
    (tol : ℚ) (s : σ) (res : SolveResult ρ) : Prop :=
  1 ≤ res.total_iterations ∧
  noConvUpTo pass tol 1 s (res.total_iterations - 1) ∧
  ∃ p, passAt pass 1 s (res.total_iterations - 1) = .ok p ∧
    (p.err < tol ∨ |p.check| < tol) ∧
    res.root = p.root ∧ res.final_error = p.err ∧ res.fx = p.fxOut

/-- The trace of a successful result holds one record per executed pass:
its records carry the iteration indices `1, 2, ..., total_iterations` in
order, and its length equals the returned iteration count. -/
def traceIndexed {ρ : Type} (gi : ρ → ℕ) (res : SolveResult ρ) : Prop :=
  res.iterations.map gi = List.range' 1 res.total_iterations ∧
  res.iterations.length = res.total_iterations

/-- Abstract syntax of the expressions `safe_eval` evaluates: numeric
literals, bare identifiers, attribute access (`math.exp`), one- and
two-argument calls, unary minus, the four arithmetic operators and `**`,
plus Python's lazy forms — short-circuit `or` and `and`, the conditional
expression `a if c else b` (`tern c a b`), and single-parameter `lambda`
abstractions, whose bodies are not evaluated until the lambda is called.
Further strict operators (comparisons, `not`, ...) evaluate all their
operands like the modelled strict forms and add nothing to name
reachability. -/
inductive Expr where
  | num (q : ℚ)
  | name (s : String)
  | attr (e : Expr) (fld : String)
  | call (fn : Expr) (arg : Expr)
  | call2 (fn : Expr) (a1 a2 : Expr)
  | neg (a : Expr)
  | add (a b : Expr)
  | sub (a b : Expr)
  | mul (a b : Expr)
  | div (a b : Expr)
  | powOp (a b : Expr)
  | orE (a b : Expr)
  | andE (a b : Expr)
  | tern (c a b : Expr)
  | lam (param : String) (body : Expr)
deriving DecidableEq, Repr

/-- A value the restricted `eval` of `safe_eval` can produce: a number, a
callable from the namespace dict (identified by its name), the `math`
module object, Python's `None` (the value `__builtins__` is bound to), or
a lambda closure carrying the parameter bindings of the function scopes it
was created under, its parameter, and its unevaluated body. -/
inductive PyVal where
  | num (q : ℚ)
  | func (name : String)
  | module (name : String)
  | pynone
  | closure (captured : List (String × PyVal)) (param : String) (body : Expr)

/-- `math.pi`: the IEEE-754 double Python exposes, an exact rational. -/
def mathPi : ℚ := 884279719003555 / 281474976710656

/-- `math.e`: the IEEE-754 double Python exposes, an exact rational. -/
def mathE : ℚ := 6121026514868073 / 2251799813685248

/-- The locals dict `safe_eval` passes to `eval` as its third argument
(`app.py` lines 10-15, identical in `ZOF_CLI.py`): the variable `x`, the
whole `math` module, the functions `sin, cos, tan, exp, log, sqrt, abs,
pow` and the constants `pi, e`. -/
def lookupLocal (xv : ℚ) (s : String) : Option PyVal :=
  if s = "x" then some (.num xv)
  else if s = "math" then some (.module ("math"))
  else if s = "sin" then some (.func ("sin"))
  else if s = "cos" then some (.func ("cos"))
  else if s = "tan" then some (.func ("tan"))
  else if s = "exp" then some (.func ("exp"))
  else if s = "log" then some (.func ("log"))
  else if s = "sqrt" then some (.func ("sqrt"))
  else if s = "pi" then some (.num mathPi)
  else if s = "e" then some (.num mathE)
  else if s = "abs" then some (.func ("abs"))
  else if s = "pow" then some (.func ("pow"))
  else none

/-- The globals dict `safe_eval` passes to `eval` as its second argument:
`{"__builtins__": None}`.  The name `__builtins__` therefore resolves — to
`None`, without raising — and because the builtins value is `None` no
builtin function resolves through it. -/
def lookupGlobal (s : String) : Option PyVal :=
  if s = "__builtins__" then some (.pynone) else none

/-- Top-level name resolution of `eval(expr, globals, locals)`: the locals
dict first, then the globals dict. -/
def lookupName (xv : ℚ) (s : String) : Option PyVal :=
  match lookupLocal xv s with
  | some v => some v
  | none => lookupGlobal s

/-- Lookup in the parameter bindings of enclosing lambda scopes. -/
def lookupEnv : List (String × PyVal) → String → Option PyVal
  | [], _ => none
  | (k, v) :: t, s => if s = k then some v else lookupEnv t s

/-- Where a name is being resolved: at the top level of the evaluated
expression, or inside the body of a called lambda.  CPython compiles a
lambda body as a nested function, so its free names are looked up in the
enclosing lambda parameters and then in the *globals* dict only — the
locals dict of `eval` (holding `x`, `math`, `sin`, ...) is not visible
from inside a lambda body. -/
inductive NameScope where
  | top
  | fnScope (env : List (String × PyVal))

/-- The lambda-parameter bindings visible in a scope (none at top level). -/
def scopeEnv : NameScope → List (String × PyVal)
  | .top => []
  | .fnScope env => env

/-- Name resolution in a scope: top level consults the locals dict then
the globals dict; a lambda body consults enclosing parameters then the
globals dict. -/
def resolveName (xv : ℚ) (sc : NameScope) (s : String) : Option PyVal :=
  match sc with
  | .top => lookupName xv s
  | .fnScope env =>
    match lookupEnv env s with
    | some v => some v
    | none => lookupGlobal s

/-- Attribute access on a module value. Only the `math` module exists in
the namespace; a representative subset of its attributes is modelled (the
claims under verification depend only on whether the module itself is
reachable, not on its full attribute list). -/
def mathAttr (m fld : String) : Option PyVal :=
  if m = "math" then
    if fld = "sin" then some (.func ("sin"))
    else if fld = "cos" then some (.func ("cos"))
    else if fld = "tan" then some (.func ("tan"))
    else if fld = "exp" then some (.func ("exp"))
    else if fld = "log" then some (.func ("log"))
    else if fld = "sqrt" then some (.func ("sqrt"))
    else if fld = "floor" then some (.func ("floor"))
    else if fld = "fabs" then some (.func ("fabs"))
    else if fld = "pi" then some (.num mathPi)
    else if fld = "e" then some (.num mathE)
    else none
  else none

/-- The bare identifiers an expression *strictly* evaluates when it is
itself evaluated: identifiers whose name lookup is unconditionally
performed, at the same scope, before the expression can produce a value.
The second operand of `or`/`and`, both branches of a conditional
expression, and the body of a lambda are evaluated only conditionally (or
not at all), so their identifiers are excluded. -/
def strictIdents : Expr → List String
  | .num _ => []
  | .name s => [s]
  | .attr e _ => strictIdents e
  | .call fn arg => strictIdents fn ++ strictIdents arg
  | .call2 fn a1 a2 => strictIdents fn ++ (strictIdents a1 ++ strictIdents a2)
  | .neg a => strictIdents a
  | .add a b => strictIdents a ++ strictIdents b
  | .sub a b => strictIdents a ++ strictIdents b
  | .mul a b => strictIdents a ++ strictIdents b
  | .div a b => strictIdents a ++ strictIdents b
  | .powOp a b => strictIdents a ++ strictIdents b
  | .orE a _ => strictIdents a
  | .andE a _ => strictIdents a
  | .tern c _ _ => strictIdents c
  | .lam _ _ => []

/-- The permitted identifier set exactly as the spec lists it: the variable
`x`, the functions `sin, cos, tan, exp, log, sqrt, abs, pow` and the
constants `pi, e`. -/
def specAllowedNames : List String :=
  ["x", "sin", "cos", "tan", "exp", "log", "sqrt", "abs", "pow", "pi", "e"]

/-- The identifiers the two namespace dicts actually resolve at top level:
the spec's list plus `math` (the source binds the whole `math` module in
the locals dict) plus `__builtins__` (bound to `None` in the globals
dict, so it resolves without raising). -/
def evalAllowedNames : List String := "__builtins__" :: "math" :: specAllowedNames

/-- Python truthiness of the modelled values: a number is truthy unless it
is zero, `None` is falsy, and functions, modules and lambdas are truthy. -/
def truthy : PyVal → Bool
  | .num q => if q = 0 then false else true
  | .func _ => true
  | .module _ => true
  | .pynone => false
  | .closure _ _ _ => true

/-- Applying a namespace callable to a numeric argument. `abs` is Python's
computable builtin; the transcendental `math` functions are supplied by the
oracle `F` (`none` models a domain error such as `log` of a negative
number). -/
def applyFunc (F : String → ℚ → Option ℚ) (n : String) (q : ℚ) : Option ℚ :=
  if n = "abs" then some (|q|) else F n q

/-- `safe_eval(expr, x_val)` (`app.py` lines 7-17): evaluation in the
restricted namespace, with every Python exception (NameError for an
unresolved identifier, TypeError, ZeroDivisionError, domain errors)
wrapped into the single `ValueError` the spec calls `EvaluationError`,
modelled as `some (.error ())`.  `F` is the oracle interpreting the
transcendental `math` functions; integer exponents are evaluated exactly
and irrational results of `**` are outside the rational model.  `fuel`
bounds the evaluation depth: `none` means the bound was exhausted (lambda
self-application can make evaluation run forever, so no uniform bound
exists); every claim quantifies over the fuel.  Short-circuit `or`/`and`
return the deciding operand's value and skip the other operand; the
conditional evaluates only the selected branch; a lambda evaluates to a
closure without touching its body, and calling a closure evaluates the
body in the scope of its parameter bindings (see `NameScope`). -/
def evalE (F : String → ℚ → Option ℚ) (xv : ℚ) :
    ℕ → NameScope → Expr → Option (Except Unit PyVal)
  | 0, _, _ => none
  | fuel + 1, sc, e =>
    match e with
    | .num q => some (.ok (.num q))
    | .name s =>
      match resolveName xv sc s with
      | some v => some (.ok v)
      | none => some (.error ())
    | .attr e1 fld =>
      match evalE F xv fuel sc e1 with
      | none => none
      | some (.error _) => some (.error ())
      | some (.ok (.module m)) =>
        match mathAttr m fld with
        | some v => some (.ok v)
        | none => some (.error ())
      | some (.ok _) => some (.error ())
    | .call fn arg =>
      match evalE F xv fuel sc fn with
      | none => none
      | some (.error _) => some (.error ())
      | some (.ok vf) =>
        match evalE F xv fuel sc arg with
        | none => none
        | some (.error _) => some (.error ())
        | some (.ok va) =>
          match vf with
          | .func n =>
            match va with
            | .num q =>
              match applyFunc F n q with
              | some r => some (.ok (.num r))
              | none => some (.error ())
            | _ => some (.error ())
          | .closure env p body => evalE F xv fuel (.fnScope ((p, va) :: env)) body
          | _ => some (.error ())
    | .call2 fn a1 a2 =>
      match evalE F xv fuel sc fn with
      | none => none
      | some (.error _) => some (.error ())
      | some (.ok vf) =>
        match evalE F xv fuel sc a1 with
        | none => none
        | some (.error _) => some (.error ())
        | some (.ok v1) =>
          match evalE F xv fuel sc a2 with
          | none => none
          | some (.error _) => some (.error ())
          | some (.ok v2) =>
            match vf, v1, v2 with
            | .func n, .num q1, .num q2 =>
              if n = "pow" ∧ q2.den = 1 then some (.ok (.num (q1 ^ q2.num)))
              else some (.error ())
            | _, _, _ => some (.error ())
    | .neg a =>
      match evalE F xv fuel sc a with
      | none => none
      | some (.error _) => some (.error ())
      | some (.ok (.num q)) => some (.ok (.num (-q)))
      | some (.ok _) => some (.error ())
    | .add a b =>
      match evalE F xv fuel sc a with
      | none => none
      | some (.error _) => some (.error ())
      | some (.ok va) =>
        match evalE F xv fuel sc b with
        | none => none
        | some (.error _) => some (.error ())
        | some (.ok vb) =>
          match va, vb with
          | .num p, .num q => some (.ok (.num (p + q)))
          | _, _ => some (.error ())
    | .sub a b =>
      match evalE F xv fuel sc a with
      | none => none
      | some (.error _) => some (.error ())
      | some (.ok va) =>
        match evalE F xv fuel sc b with
        | none => none
        | some (.error _) => some (.error ())
        | some (.ok vb) =>
          match va, vb with
          | .num p, .num q => some (.ok (.num (p - q)))
          | _, _ => some (.error ())
    | .mul a b =>
      match evalE F xv fuel sc a with
      | none => none
      | some (.error _) => some (.error ())
      | some (.ok va) =>
        match evalE F xv fuel sc b with
        | none => none
        | some (.error _) => some (.error ())
        | some (.ok vb) =>
          match va, vb with
          | .num p, .num q => some (.ok (.num (p * q)))
          | _, _ => some (.error ())
    | .div a b =>
      match evalE F xv fuel sc a with
      | none => none
      | some (.error _) => some (.error ())
      | some (.ok va) =>
        match evalE F xv fuel sc b with
        | none => none
        | some (.error _) => some (.error ())
        | some (.ok vb) =>
          match va, vb with
          | .num p, .num q => if q = 0 then some (.error ()) else some (.ok (.num (p / q)))
          | _, _ => some (.error ())
    | .powOp a b =>
      match evalE F xv fuel sc a with
      | none => none
      | some (.error _) => some (.error ())
      | some (.ok va) =>
        match evalE F xv fuel sc b with
        | none => none
        | some (.error _) => some (.error ())
        | some (.ok vb) =>
          match va, vb with
          | .num p, .num q => if q.den = 1 then some (.ok (.num (p ^ q.num))) else some (.error ())
          | _, _ => some (.error ())
    | .orE a b =>
      match evalE F xv fuel sc a with
      | none => none
      | some (.error _) => some (.error ())
      | some (.ok va) => if truthy va then some (.ok va) else evalE F xv fuel sc b
    | .andE a b =>
      match evalE F xv fuel sc a with
      | none => none
      | some (.error _) => some (.error ())
      | some (.ok va) => if truthy va then evalE F xv fuel sc b else some (.ok va)
    | .tern c a b =>
      match evalE F xv fuel sc c with
      | none => none
      | some (.error _) => some (.error ())
      | some (.ok vc) => if truthy vc then evalE F xv fuel sc a else evalE F xv fuel sc b
    | .lam p body => some (.ok (.closure (scopeEnv sc) p body))


/-- Shifting `passAt` across one successful pass. -/
theorem passAt_shift {σ ρ : Type} (pass : ℕ → σ → Except SolveError (PassData σ ρ))
    {i : ℕ} {s : σ} {p : PassData σ ρ} (k : ℕ) (hp : pass i s = .ok p) :
    passAt pass i s (k + 1) = passAt pass (i + 1) p.next k := by
  simp [passAt, hp]

/-- Shifting `stateAt` across one successful pass. -/
theorem stateAt_shift {σ ρ : Type} (pass : ℕ → σ → Except SolveError (PassData σ ρ))
    {i : ℕ} {s : σ} {p : PassData σ ρ} (k : ℕ) (hp : pass i s = .ok p) :
    stateAt pass i s (k + 1) = stateAt pass (i + 1) p.next k := by
  simp [stateAt, hp]

/-- A defined pass state determines the pass outcome: `passAt` at offset `k`
is the pass function applied at index `i + k` to the state `stateAt` yields. -/
theorem passAt_of_stateAt {σ ρ : Type} (pass : ℕ → σ → Except SolveError (PassData σ ρ)) :
    ∀ k i s s1, stateAt pass i s k = .ok s1 → passAt pass i s k = pass (i + k) s1 := by
  intro k
  induction k with
  | zero =>
    intro i s s1 h
    simp only [stateAt] at h
    cases h
    simp [passAt]
  | succ k ih =>
    intro i s s1 h
    rw [stateAt] at h
    cases hp : pass i s with
    | error e => rw [hp] at h; simp at h
    | ok p =>
      rw [hp] at h
      simp only at h
      rw [passAt_shift pass k hp, ih _ _ _ h]
      congr 1
      omega

/-- On a successful run the loop returns at the first pass satisfying the
stopping rule: every earlier pass ran without a guard error and without
converging, the returning pass satisfies `err < tol ∨ |check| < tol`, and
the result's `root`, `final_error` and `fx` fields come from that pass. -/
theorem runLoop_ok_spec {σ ρ : Type} (pass : ℕ → σ → Except SolveError (PassData σ ρ))
    (tol : ℚ) :
    ∀ fuel i s acc res, runLoop pass tol fuel i s acc = .ok res →
      i ≤ res.total_iterations ∧ res.total_iterations < i + fuel ∧
      noConvUpTo pass tol i s (res.total_iterations - i) ∧
      ∃ p, passAt pass i s (res.total_iterations - i) = .ok p ∧
        (p.err < tol ∨ |p.check| < tol) ∧
        res.root = p.root ∧ res.final_error = p.err ∧ res.fx = p.fxOut := by
  intro fuel
  induction fuel with
  | zero => intro i s acc res h; simp [runLoop] at h
  | succ n ih =>
    intro i s acc res h
    rw [runLoop] at h
    cases hp : pass i s with
    | error e => rw [hp] at h; simp at h
    | ok p =>
      rw [hp] at h
      simp only at h
      by_cases hc : p.err < tol ∨ |p.check| < tol
      · rw [if_pos hc] at h
        cases h
        refine ⟨le_refl i, Nat.lt_add_of_pos_right (Nat.succ_pos n), ?_, p, ?_, hc, rfl, rfl, rfl⟩
        · show noConvUpTo pass tol i s (i - i)
          intro j hj
          omega
        · show passAt pass i s (i - i) = .ok p
          rw [Nat.sub_self]
          exact hp
      · rw [if_neg hc] at h
        obtain ⟨h1, h2, hnc, p1, hp1, hc1, hr⟩ := ih _ _ _ _ h
        refine ⟨by omega, by omega, ?_, p1, ?_, hc1, hr⟩
        · intro j hj
          cases j with
          | zero => exact ⟨p, by simp [passAt, hp], hc⟩
          | succ j =>
            rw [passAt_shift pass j hp]
            exact hnc j (by omega)
        · have he : res.total_iterations - i = (res.total_iterations - (i + 1)) + 1 := by
            omega
          rw [he, passAt_shift pass _ hp]
          exact hp1

/-- If every one of the `fuel` available passes runs without a guard error
and none satisfies the stopping rule, the loop raises the
maximum-iterations error. -/
theorem runLoop_exhaust {σ ρ : Type} (pass : ℕ → σ → Except SolveError (PassData σ ρ))
    (tol : ℚ) :
    ∀ fuel i s acc, noConvUpTo pass tol i s fuel →
      runLoop pass tol fuel i s acc = .error .maxIterations := by
  intro fuel
  induction fuel with
  | zero => intro i s acc _; rfl
  | succ n ih =>
    intro i s acc hnc
    obtain ⟨p, hp0, hnp⟩ := hnc 0 (by omega)
    simp only [passAt] at hp0
    rw [runLoop, hp0]
    simp only
    rw [if_neg hnp]
    apply ih
    intro j hj
    have hh := hnc (j + 1) (by omega)
    rwa [passAt_shift pass j hp0] at hh

/-- If the first `k` passes run without convergence and the pass at offset
`k` raises a guard error, the loop surfaces exactly that error (provided
`k` is within the iteration budget). -/
theorem runLoop_error_at {σ ρ : Type} (pass : ℕ → σ → Except SolveError (PassData σ ρ))
    (tol : ℚ) :
    ∀ k fuel i s acc e, noConvUpTo pass tol i s k → passAt pass i s k = .error e →
      k < fuel → runLoop pass tol fuel i s acc = .error e := by
  intro k
  induction k with
  | zero =>
    intro fuel i s acc e _ hpe hk
    obtain ⟨n, rfl⟩ : ∃ n, fuel = n + 1 := ⟨fuel - 1, by omega⟩
    simp only [passAt] at hpe
    rw [runLoop, hpe]
  | succ k ih =>
    intro fuel i s acc e hnc hpe hk
    obtain ⟨p, hp0, hnp⟩ := hnc 0 (by omega)
    simp only [passAt] at hp0
    obtain ⟨n, rfl⟩ : ∃ n, fuel = n + 1 := ⟨fuel - 1, by omega⟩
    rw [runLoop, hp0]
    simp only
    rw [if_neg hnp]
    apply ih
    · intro j hj
      have hh := hnc (j + 1) (by omega)
      rwa [passAt_shift pass j hp0] at hh
    · rwa [passAt_shift pass k hp0] at hpe
    · omega

/-- Any error surfacing from the loop is either the maximum-iterations
error or an error some pass itself raised. -/
theorem runLoop_error_source {σ ρ : Type} (pass : ℕ → σ → Except SolveError (PassData σ ρ))
    (tol : ℚ) :
    ∀ fuel i s acc e, runLoop pass tol fuel i s acc = .error e →
      e = .maxIterations ∨ ∃ j s1, pass j s1 = .error e := by
  intro fuel
  induction fuel with
  | zero =>
    intro i s acc e h
    simp only [runLoop] at h
    cases h
    exact Or.inl rfl
  | succ n ih =>
    intro i s acc e h
    rw [runLoop] at h
    cases hp : pass i s with
    | error e1 =>
      rw [hp] at h
      simp only at h
      cases h
      exact Or.inr ⟨i, s, hp⟩
    | ok p =>
      rw [hp] at h
      simp only at h
      by_cases hc : p.err < tol ∨ |p.check| < tol
      · rw [if_pos hc] at h; simp at h
      · rw [if_neg hc] at h
        exact ih _ _ _ _ h

/-- On a successful run the trace holds exactly one record per executed
pass, in order: mapping each record to its iteration index yields the
previously accumulated indices followed by `i, i+1, ..., total_iterations`
(provided the pass function stamps each record with its pass index). -/
theorem runLoop_ok_trace {σ ρ : Type} (pass : ℕ → σ → Except SolveError (PassData σ ρ))
    (tol : ℚ) (gi : ρ → ℕ)
    (hidx : ∀ j s1 p, pass j s1 = .ok p → gi p.record = j) :
    ∀ fuel i s acc res, runLoop pass tol fuel i s acc = .ok res →
      i ≤ res.total_iterations ∧
      res.iterations.map gi =
        acc.map gi ++ List.range' i (res.total_iterations + 1 - i) := by
  intro fuel
  induction fuel with
  | zero => intro i s acc res h; simp [runLoop] at h
  | succ n ih =>
    intro i s acc res h
    rw [runLoop] at h
    cases hp : pass i s with
    | error e => rw [hp] at h; simp at h
    | ok p =>
      rw [hp] at h
      simp only at h
      by_cases hc : p.err < tol ∨ |p.check| < tol
      · rw [if_pos hc] at h
        cases h
        refine ⟨le_refl i, ?_⟩
        simp [List.range'_succ, hidx i s p hp]
      · rw [if_neg hc] at h
        obtain ⟨h1, h2⟩ := ih _ _ _ _ h
        refine ⟨by omega, ?_⟩
        rw [h2]
        have he : res.total_iterations + 1 - i = (res.total_iterations + 1 - (i + 1)) + 1 := by
          omega
        rw [he, List.range'_succ]
        simp [hidx i s p hp]

/-- The bisection loop body contains no guard: every pass succeeds. -/
theorem bisectPass_ne_error (f : ℚ → ℚ) (j : ℕ) (s : BisectState) (e : SolveError) :
    bisectPass f j s ≠ .error e := by
  simp [bisectPass]

/-- The fixed-point loop body contains no guard: every pass succeeds. -/
theorem fixedPointPass_ne_error (f g : ℚ → ℚ) (j : ℕ) (x : ℚ) (e : SolveError) :
    fixedPointPass f g j x ≠ .error e := by
  simp [fixedPointPass]

/-- The only error a regula falsi pass raises is the raw division by zero. -/
theorem regulaPass_error_eq (f : ℚ → ℚ) (j : ℕ) (s : RegulaState) (e : SolveError)
    (h : regulaPass f j s = .error e) : e = .zeroDivision := by
  simp only [regulaPass] at h
  split at h
  · cases h; rfl
  · cases h

/-- The only error a secant pass raises is the near-zero-slope guard. -/
theorem secantPass_error_eq (f : ℚ → ℚ) (j : ℕ) (s : SecantState) (e : SolveError)
    (h : secantPass f j s = .error e) : e = .singularity := by
  simp only [secantPass] at h
  split at h
  · cases h; rfl
  · cases h

/-- The only error a Newton-Raphson pass raises is the derivative guard. -/
theorem newtonPass_error_eq (f : ℚ → ℚ) (j : ℕ) (x : ℚ) (e : SolveError)
    (h : newtonPass f j x = .error e) : e = .singularity := by
  simp only [newtonPass] at h
  split at h
  · cases h; rfl
  · cases h

/-- The only error a modified secant pass raises is the difference guard. -/
theorem modSecantPass_error_eq (f : ℚ → ℚ) (delta : ℚ) (j : ℕ) (x : ℚ) (e : SolveError)
    (h : modSecantPass f delta j x = .error e) : e = .singularity := by
  simp only [modSecantPass] at h
  split at h
  · cases h; rfl
  · cases h

/-- Each bisection record is stamped with its pass index. -/
theorem bisectPass_idx (f : ℚ → ℚ) (j : ℕ) (s : BisectState) (p : PassData BisectState BisectionRecord)
    (h : bisectPass f j s = .ok p) : p.record.iteration = j := by
  simp only [bisectPass] at h
  cases h
  rfl

/-- Each regula falsi record is stamped with its pass index. -/
theorem regulaPass_idx (f : ℚ → ℚ) (j : ℕ) (s : RegulaState) (p : PassData RegulaState RegulaRecord)
    (h : regulaPass f j s = .ok p) : p.record.iteration = j := by
  simp only [regulaPass] at h
  split at h
  · cases h
  · cases h; rfl

/-- Each secant record is stamped with its pass index. -/
theorem secantPass_idx (f : ℚ → ℚ) (j : ℕ) (s : SecantState) (p : PassData SecantState SecantRecord)
    (h : secantPass f j s = .ok p) : p.record.iteration = j := by
  simp only [secantPass] at h
  split at h
  · cases h
  · cases h; rfl

/-- Each Newton-Raphson record is stamped with its pass index. -/
theorem newtonPass_idx (f : ℚ → ℚ) (j : ℕ) (x : ℚ) (p : PassData ℚ NewtonRecord)
    (h : newtonPass f j x = .ok p) : p.record.iteration = j := by
  simp only [newtonPass] at h
  split at h
  · cases h
  · cases h; rfl

/-- Each fixed-point record is stamped with its pass index. -/
theorem fixedPointPass_idx (f g : ℚ → ℚ) (j : ℕ) (x : ℚ) (p : PassData ℚ FixedPointRecord)
    (h : fixedPointPass f g j x = .ok p) : p.record.iteration = j := by
  simp only [fixedPointPass] at h
  cases h
  rfl

/-- Each modified secant record is stamped with its pass index. -/
theorem modSecantPass_idx (f : ℚ → ℚ) (delta : ℚ) (j : ℕ) (x : ℚ) (p : PassData ℚ ModifiedSecantRecord)
    (h : modSecantPass f delta j x = .ok p) : p.record.iteration = j := by
  simp only [modSecantPass] at h
  split at h
  · cases h
  · cases h; rfl

/-- A successful bisection call took the non-precondition branch and its
result came from the shared loop. -/
theorem bisection_ok_elim (f : ℚ → ℚ) (a b tol : ℚ) (m : ℕ) (res : SolveResult BisectionRecord)
    (h : bisection_method f a b tol m = .ok res) :
    runLoop (bisectPass f) tol m 1 ⟨a, b, f a, f b⟩ [] = .ok res := by
  simp only [bisection_method] at h
  split at h
  · cases h
  · exact h

/-- A loop started at iteration 1 returns a result at the first converging
pass. -/
theorem runLoop_start1_firstConv {σ ρ : Type} (pass : ℕ → σ → Except SolveError (PassData σ ρ))
    (tol : ℚ) (m : ℕ) (s : σ) (res : SolveResult ρ)
    (h : runLoop pass tol m 1 s [] = .ok res) : firstConv pass tol s res := by
  obtain ⟨h1, _, hnc, hp⟩ := runLoop_ok_spec pass tol m 1 s [] res h
  exact ⟨h1, hnc, hp⟩

/-- A loop started at iteration 1 never returns more iterations than its
budget. -/
theorem runLoop_start1_le {σ ρ : Type} (pass : ℕ → σ → Except SolveError (PassData σ ρ))
    (tol : ℚ) (m : ℕ) (s : σ) (res : SolveResult ρ)
    (h : runLoop pass tol m 1 s [] = .ok res) : res.total_iterations ≤ m := by
  obtain ⟨_, h2, _⟩ := runLoop_ok_spec pass tol m 1 s [] res h
  omega

/-- A loop started at iteration 1 with index-stamping passes produces an
in-order trace of one record per executed pass. -/
theorem runLoop_start1_trace {σ ρ : Type} (pass : ℕ → σ → Except SolveError (PassData σ ρ))
    (tol : ℚ) (gi : ρ → ℕ)
    (hidx : ∀ j s1 p, pass j s1 = .ok p → gi p.record = j)
    (m : ℕ) (s : σ) (res : SolveResult ρ)
    (h : runLoop pass tol m 1 s [] = .ok res) : traceIndexed gi res := by
  obtain ⟨h1, h2⟩ := runLoop_ok_trace pass tol gi hidx m 1 s [] res h
  have h3 : res.total_iterations + 1 - 1 = res.total_iterations := by omega
  rw [h3] at h2
  simp only [List.map_nil, List.nil_append] at h2
  refine ⟨h2, ?_⟩
  have h4 := congrArg List.length h2
  simpa [List.length_range'] using h4

/-- A bisection pass halves the bracket width, and its error estimate is
half the width of the bracket it received. -/
theorem bisectPass_next_width (f : ℚ → ℚ) (i : ℕ) (s : BisectState)
    (p : PassData BisectState BisectionRecord) (h : bisectPass f i s = .ok p) :
    |p.next.b - p.next.a| = |s.b - s.a| / 2 ∧ p.err = |s.b - s.a| / 2 := by
  simp only [bisectPass] at h
  cases h
  refine ⟨?_, rfl⟩
  show |(if s.fa * f ((s.a + s.b) / 2) < 0 then
          (⟨s.a, (s.a + s.b) / 2, s.fa, f ((s.a + s.b) / 2)⟩ : BisectState)
        else ⟨(s.a + s.b) / 2, s.b, f ((s.a + s.b) / 2), s.fb⟩).b -
       (if s.fa * f ((s.a + s.b) / 2) < 0 then
          (⟨s.a, (s.a + s.b) / 2, s.fa, f ((s.a + s.b) / 2)⟩ : BisectState)
        else ⟨(s.a + s.b) / 2, s.b, f ((s.a + s.b) / 2), s.fb⟩).a| = |s.b - s.a| / 2
  split
  · show |(s.a + s.b) / 2 - s.a| = |s.b - s.a| / 2
    have hx : (s.a + s.b) / 2 - s.a = (s.b - s.a) / 2 := by ring
    rw [hx, abs_div]
    norm_num
  · show |s.b - (s.a + s.b) / 2| = |s.b - s.a| / 2
    have hx : s.b - (s.a + s.b) / 2 = (s.b - s.a) / 2 := by ring
    rw [hx, abs_div]
    norm_num

/-- In a bisection pass the residual compared against the tolerance is the
function value at the candidate root. -/
theorem bisectPass_check (f : ℚ → ℚ) (i : ℕ) (s : BisectState)
    (p : PassData BisectState BisectionRecord) (h : bisectPass f i s = .ok p) :
    p.check = f p.root := by
  simp only [bisectPass] at h
  cases h
  rfl

/-- The bisection loop converges within `k` passes whenever the starting
bracket is narrower than `tol * 2 ^ k`: the error estimate is exactly the
half-width, which halves each pass. -/
theorem bisect_loop_conv (f : ℚ → ℚ) (tol : ℚ) :
    ∀ (k : ℕ), 1 ≤ k → ∀ (fuel i : ℕ) (s : BisectState) (acc : List BisectionRecord),
      k ≤ fuel → |s.b - s.a| < tol * 2 ^ k →
      ∃ res, runLoop (bisectPass f) tol fuel i s acc = .ok res ∧
        res.total_iterations + 1 ≤ i + k ∧
        (res.final_error < tol ∨ |f res.root| < tol) := by
  intro k hk
  induction k, hk using Nat.le_induction with
  | base =>
    intro fuel i s acc hf hw
    obtain ⟨n, rfl⟩ : ∃ n, fuel = n + 1 := ⟨fuel - 1, by omega⟩
    have herr : |s.b - s.a| / 2 < tol := by
      rw [pow_one] at hw
      linarith
    rw [runLoop]
    simp only [bisectPass]
    rw [if_pos (Or.inl herr)]
    exact ⟨_, rfl, Nat.le_refl _, Or.inl herr⟩
  | succ k hk1 ih =>
    intro fuel i s acc hf hw
    obtain ⟨n, rfl⟩ : ∃ n, fuel = n + 1 := ⟨fuel - 1, by omega⟩
    cases hp : bisectPass f i s with
    | error e => exact absurd hp (bisectPass_ne_error f i s e)
    | ok p =>
      obtain ⟨hnw, herr⟩ := bisectPass_next_width f i s p hp
      rw [runLoop, hp]
      simp only
      by_cases hc : p.err < tol ∨ |p.check| < tol
      · rw [if_pos hc]
        refine ⟨_, rfl, ?_, ?_⟩
        · show i + 1 ≤ i + (k + 1)
          omega
        · show p.err < tol ∨ |f p.root| < tol
          rw [← bisectPass_check f i s p hp]
          exact hc
      · rw [if_neg hc]
        have hw2 : |p.next.b - p.next.a| < tol * 2 ^ k := by
          rw [hnw]
          rw [pow_succ] at hw
          linarith
        obtain ⟨res, hres, h1, h2⟩ := ih n (i + 1) p.next (acc ++ [p.record]) (by omega) hw2
        exact ⟨res, hres, by omega, h2⟩

/-- Claim C1 (amended): for every expression with a verified sign change on
`[a, b]`, bisection returns within `k` iterations whenever `k ≥ 1`,
`k ≤ max_iterations` and `|b - a| < tol * 2 ^ k` — that is, within any
whole number of iterations strictly greater than `log2((b-a)/tol)` — and
the returned result satisfies `final_error < tol` or `|f(root)| < tol`.
When `(b-a)/tol` is exactly a power of two, `ceil(log2((b-a)/tol))`
iterations do not always suffice (see the counterexample); one more does. -/
theorem bisection_bracket_convergence (f : ℚ → ℚ) (a b tol : ℚ) (k m : ℕ)
    (hsign : f a * f b < 0) (hk : 1 ≤ k) (hkm : k ≤ m) (hw : |b - a| < tol * 2 ^ k) :
    ∃ res, bisection_method f a b tol m = .ok res ∧ res.total_iterations ≤ k ∧
      (res.final_error < tol ∨ |f res.root| < tol) := by
  obtain ⟨res, hres, h1, h2⟩ := bisect_loop_conv f tol k hk m 1 ⟨a, b, f a, f b⟩ [] hkm hw
  refine ⟨res, ?_, by omega, h2⟩
  simp only [bisection_method]
  rw [if_neg (not_lt.mpr (le_of_lt hsign))]
  exact hres

/-- Claim C1 witness: `f(x) = x` on `[-1, 1]` with tolerance 1 has a sign
change and `|b - a| = 2 < 1 * 2 ^ 2`, so bisection converges within 2
iterations. -/
theorem bisection_bracket_convergence_witness :
    ∃ res, bisection_method (fun x : ℚ => x) (-1) 1 1 2 = .ok res ∧
      res.total_iterations ≤ 2 ∧
      (res.final_error < 1 ∨ |(fun x : ℚ => x) res.root| < 1) :=
  bisection_bracket_convergence (fun x : ℚ => x) (-1) 1 1 2 2 (by norm_num) (by norm_num)
    (by norm_num) (by norm_num)

/-- Claim C1 counterexample: `f(x) = 7x - 7/3` on `[0, 1]` with
`tol = 1/4` has a verified sign change and `(b - a)/tol = 4`, so
`ceil(log2((b-a)/tol)) = 2`; yet with `max_iterations = 2` the call raises
the maximum-iterations error instead of converging within 2 iterations
(iteration 2 produces error estimate exactly `1/4`, which is not `< 1/4`). -/
theorem bisection_ceil_log_insufficient :
    Nat.clog 2 4 = 2 ∧
    ((fun x : ℚ => 7 * x - 7 / 3) 0) * ((fun x : ℚ => 7 * x - 7 / 3) 1) < 0 ∧
    ((1 : ℚ) - 0) / (1 / 4) = 4 ∧
    bisection_method (fun x : ℚ => 7 * x - 7 / 3) 0 1 (1 / 4) 2 = .error .maxIterations := by
  refine ⟨?_, by norm_num, by norm_num, ?_⟩
  · rw [show (4 : ℕ) = 2 ^ 2 from rfl]
    exact Nat.clog_pow 2 2 (by norm_num)
  · norm_num [bisection_method, runLoop, bisectPass, abs_of_nonneg, abs_of_nonpos]

/-- Claim C3 counterexample: with `f(x) = x` on `[0, 1]` the endpoint
values do not satisfy `f(a)·f(b) < 0` (their product is 0), yet
`bisection_method` does not fail with the precondition error — it runs the
loop and returns a result with an iteration record. -/
theorem bisection_zero_product_runs :
    ¬(((fun x : ℚ => x) 0) * ((fun x : ℚ => x) 1) < 0) ∧
    bisection_method (fun x : ℚ => x) 0 1 1 5 =
      .ok ⟨1 / 2, [⟨1, 0, 1, 1 / 2, 1 / 2, 1 / 2⟩], 1, 1 / 2, 1 / 2⟩ :=
  ⟨by norm_num, by norm_num [bisection_method, runLoop, bisectPass, abs_of_nonneg]⟩

/-- Claim C3 (amended): bisection fails with the precondition error exactly
when `f(a)·f(b) > 0` — the source checks the strict inequality
`fa * fb > 0`, so endpoint pairs whose product is zero are accepted and
iterated on.  The check runs before the loop, so the failing call produces
no iteration record. -/
theorem bisection_precondition_iff :
    ∀ (f : ℚ → ℚ) (a b tol : ℚ) (m : ℕ),
      bisection_method f a b tol m = .error .precondition ↔ f a * f b > 0 := by
  intro f a b tol m
  constructor
  · intro h
    by_contra hn
    simp only [bisection_method] at h
    rw [if_neg hn] at h
    rcases runLoop_error_source (bisectPass f) tol m 1 ⟨a, b, f a, f b⟩ [] _ h with h1 | ⟨j, s1, h1⟩
    · cases h1
    · exact bisectPass_ne_error f j s1 _ h1
  · intro h
    simp only [bisection_method]
    rw [if_pos h]

/-- Claim C2: every one of the six methods declares convergence at a pass
exactly when the step-to-step error estimate is `< tol` or the absolute
function value at the current candidate is `< tol`, and returns its result
at the first pass satisfying either criterion.  (The source writes the
error comparison first; both operands are already-computed numbers, so the
order of the two pure comparisons is unobservable.) -/
theorem methods_stop_at_first_convergence :
    (∀ (f : ℚ → ℚ) (a b tol : ℚ) (m : ℕ) (res : SolveResult BisectionRecord),
       bisection_method f a b tol m = .ok res →
       firstConv (bisectPass f) tol ⟨a, b, f a, f b⟩ res) ∧
    (∀ (f : ℚ → ℚ) (a b tol : ℚ) (m : ℕ) (res : SolveResult RegulaRecord),
       regula_falsi_method f a b tol m = .ok res →
       firstConv (regulaPass f) tol ⟨a, b, a⟩ res) ∧
    (∀ (f : ℚ → ℚ) (x0 x1 tol : ℚ) (m : ℕ) (res : SolveResult SecantRecord),
       secant_method f x0 x1 tol m = .ok res →
       firstConv (secantPass f) tol ⟨x0, x1⟩ res) ∧
    (∀ (f : ℚ → ℚ) (x0 tol : ℚ) (m : ℕ) (res : SolveResult NewtonRecord),
       newton_raphson_method f x0 tol m = .ok res →
       firstConv (newtonPass f) tol x0 res) ∧
    (∀ (f g : ℚ → ℚ) (x0 tol : ℚ) (m : ℕ) (res : SolveResult FixedPointRecord),
       fixed_point_method f g x0 tol m = .ok res →
       firstConv (fixedPointPass f g) tol x0 res) ∧
    (∀ (f : ℚ → ℚ) (x0 delta tol : ℚ) (m : ℕ) (res : SolveResult ModifiedSecantRecord),
       modified_secant_method f x0 delta tol m = .ok res →
       firstConv (modSecantPass f delta) tol x0 res) := by
  refine ⟨?_, ?_, ?_, ?_, ?_, ?_⟩
  · intro f a b tol m res h
    exact runLoop_start1_firstConv _ tol m _ res (bisection_ok_elim f a b tol m res h)
  · intro f a b tol m res h
    exact runLoop_start1_firstConv _ tol m _ res h
  · intro f x0 x1 tol m res h
    exact runLoop_start1_firstConv _ tol m _ res h
  · intro f x0 tol m res h
    exact runLoop_start1_firstConv _ tol m _ res h
  · intro f g x0 tol m res h
    exact runLoop_start1_firstConv _ tol m _ res h
  · intro f x0 delta tol m res h
    exact runLoop_start1_firstConv _ tol m _ res h

/-- Claim C2 witness: the concrete bisection run `f(x) = x` on `[-1, 1]`
with tolerance 1 returns at its first pass, which satisfies the residual
criterion. -/
theorem methods_stop_at_first_convergence_witness :
    firstConv (bisectPass (fun x : ℚ => x)) 1 ⟨-1, 1, -1, 1⟩
      ⟨0, [⟨1, -1, 1, 0, 0, 1⟩], 1, 1, 0⟩ :=
  methods_stop_at_first_convergence.1 (fun x : ℚ => x) (-1) 1 1 5
    ⟨0, [⟨1, -1, 1, 0, 0, 1⟩], 1, 1, 0⟩
    (by norm_num [bisection_method, runLoop, bisectPass, abs_of_nonneg])

/-- Claim C4: the iteration count in any returned result never exceeds the
supplied bound, and when all `max_iterations` passes run without the
stopping rule being satisfied, the call raises the maximum-iterations
error ("Maximum iterations reached without convergence") and no result is
produced. -/
theorem methods_iteration_bound_and_exhaustion :
    (∀ (f : ℚ → ℚ) (a b tol : ℚ) (m : ℕ) (res : SolveResult BisectionRecord),
       bisection_method f a b tol m = .ok res → res.total_iterations ≤ m) ∧
    (∀ (f : ℚ → ℚ) (a b tol : ℚ) (m : ℕ) (res : SolveResult RegulaRecord),
       regula_falsi_method f a b tol m = .ok res → res.total_iterations ≤ m) ∧
    (∀ (f : ℚ → ℚ) (x0 x1 tol : ℚ) (m : ℕ) (res : SolveResult SecantRecord),
       secant_method f x0 x1 tol m = .ok res → res.total_iterations ≤ m) ∧
    (∀ (f : ℚ → ℚ) (x0 tol : ℚ) (m : ℕ) (res : SolveResult NewtonRecord),
       newton_raphson_method f x0 tol m = .ok res → res.total_iterations ≤ m) ∧
    (∀ (f g : ℚ → ℚ) (x0 tol : ℚ) (m : ℕ) (res : SolveResult FixedPointRecord),
       fixed_point_method f g x0 tol m = .ok res → res.total_iterations ≤ m) ∧
    (∀ (f : ℚ → ℚ) (x0 delta tol : ℚ) (m : ℕ) (res : SolveResult ModifiedSecantRecord),
       modified_secant_method f x0 delta tol m = .ok res → res.total_iterations ≤ m) ∧
    (∀ (f : ℚ → ℚ) (a b tol : ℚ) (m : ℕ), ¬(f a * f b > 0) →
       noConvUpTo (bisectPass f) tol 1 ⟨a, b, f a, f b⟩ m →
       bisection_method f a b tol m = .error .maxIterations) ∧
    (∀ (f : ℚ → ℚ) (a b tol : ℚ) (m : ℕ),
       noConvUpTo (regulaPass f) tol 1 ⟨a, b, a⟩ m →
       regula_falsi_method f a b tol m = .error .maxIterations) ∧
    (∀ (f : ℚ → ℚ) (x0 x1 tol : ℚ) (m : ℕ),
       noConvUpTo (secantPass f) tol 1 ⟨x0, x1⟩ m →
       secant_method f x0 x1 tol m = .error .maxIterations) ∧
    (∀ (f : ℚ → ℚ) (x0 tol : ℚ) (m : ℕ),
       noConvUpTo (newtonPass f) tol 1 x0 m →
       newton_raphson_method f x0 tol m = .error .maxIterations) ∧
    (∀ (f g : ℚ → ℚ) (x0 tol : ℚ) (m : ℕ),
       noConvUpTo (fixedPointPass f g) tol 1 x0 m →
       fixed_point_method f g x0 tol m = .error .maxIterations) ∧
    (∀ (f : ℚ → ℚ) (x0 delta tol : ℚ) (m : ℕ),
       noConvUpTo (modSecantPass f delta) tol 1 x0 m →
       modified_secant_method f x0 delta tol m = .error .maxIterations) := by
  refine ⟨?_, ?_, ?_, ?_, ?_, ?_, ?_, ?_, ?_, ?_, ?_, ?_⟩
  · intro f a b tol m res h
    exact runLoop_start1_le _ tol m _ res (bisection_ok_elim f a b tol m res h)
  · intro f a b tol m res h
    exact runLoop_start1_le _ tol m _ res h
  · intro f x0 x1 tol m res h
    exact runLoop_start1_le _ tol m _ res h
  · intro f x0 tol m res h
    exact runLoop_start1_le _ tol m _ res h
  · intro f g x0 tol m res h
    exact runLoop_start1_le _ tol m _ res h
  · intro f x0 delta tol m res h
    exact runLoop_start1_le _ tol m _ res h
  · intro f a b tol m hpre hnc
    simp only [bisection_method]
    rw [if_neg hpre]
    exact runLoop_exhaust _ tol m 1 _ [] hnc
  · intro f a b tol m hnc
    exact runLoop_exhaust _ tol m 1 _ [] hnc
  · intro f x0 x1 tol m hnc
    exact runLoop_exhaust _ tol m 1 _ [] hnc
  · intro f x0 tol m hnc
    exact runLoop_exhaust _ tol m 1 _ [] hnc
  · intro f g x0 tol m hnc
    exact runLoop_exhaust _ tol m 1 _ [] hnc
  · intro f x0 delta tol m hnc
    exact runLoop_exhaust _ tol m 1 _ [] hnc

/-- Claim C4 witness: the secant method on `f(x) = x` from guesses 5, 6
with tolerance 1 and a budget of one iteration exhausts the budget without
converging and raises the maximum-iterations error. -/
theorem methods_iteration_bound_and_exhaustion_witness :
    secant_method (fun x : ℚ => x) 5 6 1 1 = .error .maxIterations := by
  apply methods_iteration_bound_and_exhaustion.2.2.2.2.2.2.2.2.1
  intro j hj
  have hj0 : j = 0 := by omega
  subst hj0
  refine ⟨⟨⟨1, 5, 6, 6, 6⟩, 6, 6, 0, 0, ⟨6, 0⟩⟩, ?_, ?_⟩
  · norm_num [passAt, secantPass, singularTol, abs_of_nonneg, abs_of_nonpos]
  · norm_num [abs_of_nonneg]

/-- Claim C8: every algorithm appends exactly one record per loop pass
(before that pass's convergence check, hence including the converging
pass), so on every successful run the trace length equals the returned
iteration count and the records carry the indices `1..n` in order. -/
theorem methods_trace_one_record_per_pass :
    (∀ (f : ℚ → ℚ) (a b tol : ℚ) (m : ℕ) (res : SolveResult BisectionRecord),
       bisection_method f a b tol m = .ok res →
       traceIndexed BisectionRecord.iteration res) ∧
    (∀ (f : ℚ → ℚ) (a b tol : ℚ) (m : ℕ) (res : SolveResult RegulaRecord),
       regula_falsi_method f a b tol m = .ok res →
       traceIndexed RegulaRecord.iteration res) ∧
    (∀ (f : ℚ → ℚ) (x0 x1 tol : ℚ) (m : ℕ) (res : SolveResult SecantRecord),
       secant_method f x0 x1 tol m = .ok res →
       traceIndexed SecantRecord.iteration res) ∧
    (∀ (f : ℚ → ℚ) (x0 tol : ℚ) (m : ℕ) (res : SolveResult NewtonRecord),
       newton_raphson_method f x0 tol m = .ok res →
       traceIndexed NewtonRecord.iteration res) ∧
    (∀ (f g : ℚ → ℚ) (x0 tol : ℚ) (m : ℕ) (res : SolveResult FixedPointRecord),
       fixed_point_method f g x0 tol m = .ok res →
       traceIndexed FixedPointRecord.iteration res) ∧
    (∀ (f : ℚ → ℚ) (x0 delta tol : ℚ) (m : ℕ) (res : SolveResult ModifiedSecantRecord),
       modified_secant_method f x0 delta tol m = .ok res →
       traceIndexed ModifiedSecantRecord.iteration res) := by
  refine ⟨?_, ?_, ?_, ?_, ?_, ?_⟩
  · intro f a b tol m res h
    exact runLoop_start1_trace _ tol BisectionRecord.iteration (bisectPass_idx f) m _ res
      (bisection_ok_elim f a b tol m res h)
  · intro f a b tol m res h
    exact runLoop_start1_trace _ tol RegulaRecord.iteration (regulaPass_idx f) m _ res h
  · intro f x0 x1 tol m res h
    exact runLoop_start1_trace _ tol SecantRecord.iteration (secantPass_idx f) m _ res h
  · intro f x0 tol m res h
    exact runLoop_start1_trace _ tol NewtonRecord.iteration (newtonPass_idx f) m _ res h
  · intro f g x0 tol m res h
    exact runLoop_start1_trace _ tol FixedPointRecord.iteration (fixedPointPass_idx f g) m _ res h
  · intro f x0 delta tol m res h
    exact runLoop_start1_trace _ tol ModifiedSecantRecord.iteration (modSecantPass_idx f delta) m _ res h

/-- Claim C8 witness: the concrete bisection run `f(x) = 2x` on `[0, 1]`
with tolerance 1 returns after one pass with a one-record trace stamped 1. -/
theorem methods_trace_one_record_per_pass_witness :
    traceIndexed BisectionRecord.iteration
      ⟨1 / 2, [⟨1, 0, 1, 1 / 2, 1, 1 / 2⟩], 1, 1 / 2, 1⟩ :=
  methods_trace_one_record_per_pass.1 (fun x : ℚ => 2 * x) 0 1 1 5
    ⟨1 / 2, [⟨1, 0, 1, 1 / 2, 1, 1 / 2⟩], 1, 1 / 2, 1⟩
    (by norm_num [bisection_method, runLoop, bisectPass, abs_of_nonneg])

/-- Helper for C6 and its witness: a constant function makes the secant
guard fire on the very first pass. -/
theorem secant_const_aux (c x0 x1 tol : ℚ) (m : ℕ) (hm : 1 ≤ m) :
    secant_method (fun _ => c) x0 x1 tol m = .error .singularity := by
  have hpe : passAt (secantPass (fun _ => c)) 1 ⟨x0, x1⟩ 0 = .error .singularity := by
    show secantPass (fun _ => c) 1 ⟨x0, x1⟩ = .error .singularity
    simp only [secantPass, sub_self, abs_zero]
    rw [if_pos (by norm_num [singularTol])]
  exact runLoop_error_at _ tol 0 m 1 _ [] _ (by intro j hj; omega) hpe (by omega)

/-- Claim C6: the secant method fails with the singularity error
("Division by zero in secant method") at the first reached pass whose two
function values differ by less than `1e-14` — the guard runs before the
new iterate `x2` is computed — and in particular every constant expression
makes it fail on the first iteration. -/
theorem secant_singularity_guard :
    (∀ (f : ℚ → ℚ) (x0 x1 tol : ℚ) (m k : ℕ) (s1 : SecantState),
       k < m → noConvUpTo (secantPass f) tol 1 ⟨x0, x1⟩ k →
       stateAt (secantPass f) 1 ⟨x0, x1⟩ k = .ok s1 →
       |f s1.x1 - f s1.x0| < singularTol →
       secant_method f x0 x1 tol m = .error .singularity) ∧
    (∀ (c x0 x1 tol : ℚ) (m : ℕ), 1 ≤ m →
       secant_method (fun _ => c) x0 x1 tol m = .error .singularity) := by
  constructor
  · intro f x0 x1 tol m k s1 hk hnc hst hsm
    have hpe : passAt (secantPass f) 1 ⟨x0, x1⟩ k = .error .singularity := by
      rw [passAt_of_stateAt (secantPass f) k 1 ⟨x0, x1⟩ s1 hst]
      simp only [secantPass]
      rw [if_pos hsm]
    exact runLoop_error_at _ tol k m 1 _ [] _ hnc hpe hk
  · exact secant_const_aux

/-- Claim C6 witness: the constant probe `f(x) = 3` from guesses 0, 1
fails with the singularity error on the first of 5 allowed iterations. -/
theorem secant_singularity_guard_witness :
    secant_method (fun _ : ℚ => (3 : ℚ)) 0 1 1 5 = .error .singularity :=
  secant_singularity_guard.2 3 0 1 1 5 (by norm_num)

/-- Claim C7: regula falsi performs no sign-precondition check — it can
never fail with the precondition error, and its first pass runs for
arbitrary endpoints whenever `f(b) - f(a) ≠ 0` (no matter the sign of
`f(a)·f(b)`); at any reached pass where `f(a) = f(b)` the division
`(a·f(b) - b·f(a)) / (f(b) - f(a))` degenerates with no `1e-14` guard, so
the failure is the raw division-by-zero error, a different kind from the
singularity error of the guarded methods. -/
theorem regula_falsi_unguarded :
    (∀ (f : ℚ → ℚ) (a b tol : ℚ) (m : ℕ),
       regula_falsi_method f a b tol m ≠ .error .precondition) ∧
    (∀ (f : ℚ → ℚ) (a b : ℚ), f b - f a ≠ 0 →
       ∃ p, regulaPass f 1 ⟨a, b, a⟩ = .ok p) ∧
    (∀ (f : ℚ → ℚ) (a b tol : ℚ) (m k : ℕ) (s1 : RegulaState),
       k < m → noConvUpTo (regulaPass f) tol 1 ⟨a, b, a⟩ k →
       stateAt (regulaPass f) 1 ⟨a, b, a⟩ k = .ok s1 → f s1.a = f s1.b →
       regula_falsi_method f a b tol m = .error .zeroDivision) ∧
    SolveError.zeroDivision ≠ SolveError.singularity := by
  refine ⟨?_, ?_, ?_, by intro h; cases h⟩
  · intro f a b tol m h
    rcases runLoop_error_source (regulaPass f) tol m 1 ⟨a, b, a⟩ [] _ h with h1 | ⟨j, s1, h1⟩
    · cases h1
    · have := regulaPass_error_eq f j s1 _ h1
      cases this
  · intro f a b hne
    simp only [regulaPass]
    rw [if_neg hne]
    exact ⟨_, rfl⟩
  · intro f a b tol m k s1 hk hnc hst heq
    have hpe : passAt (regulaPass f) 1 ⟨a, b, a⟩ k = .error .zeroDivision := by
      rw [passAt_of_stateAt (regulaPass f) k 1 ⟨a, b, a⟩ s1 hst]
      simp only [regulaPass]
      rw [if_pos (by rw [heq, sub_self])]
    exact runLoop_error_at _ tol k m 1 _ [] _ hnc hpe hk

/-- Claim C7 witness: on `f(x) = x² + 1` over `[-1, 1]` (same-sign
endpoints, `f(-1) = f(1) = 2`), regula falsi raises no precondition error;
its first pass already hits the equal-endpoint division and the call fails
with the raw division-by-zero error. -/
theorem regula_falsi_unguarded_witness :
    regula_falsi_method (fun x : ℚ => x * x + 1) (-1) 1 1 5 ≠ .error .precondition ∧
    regula_falsi_method (fun x : ℚ => x * x + 1) (-1) 1 1 5 = .error .zeroDivision := by
  constructor
  · exact regula_falsi_unguarded.1 (fun x : ℚ => x * x + 1) (-1) 1 1 5
  · apply regula_falsi_unguarded.2.2.1 (fun x : ℚ => x * x + 1) (-1) 1 1 5 0 ⟨-1, 1, -1⟩
    · omega
    · intro j hj; omega
    · rfl
    · norm_num

/-- Helper for C10 and its witness: a starting guess of exactly 0 makes
the modified secant perturbation `delta * x` vanish, so the first pass
compares `f(0)` with itself and the guard fires. -/
theorem modified_secant_zero_aux (f : ℚ → ℚ) (delta tol : ℚ) (m : ℕ) (hm : 1 ≤ m) :
    modified_secant_method f 0 delta tol m = .error .singularity := by
  have hpe : passAt (modSecantPass f delta) 1 0 0 = .error .singularity := by
    show modSecantPass f delta 1 0 = .error .singularity
    simp only [modSecantPass, mul_zero, add_zero, sub_self, abs_zero]
    rw [if_pos (by norm_num [singularTol])]
  exact runLoop_error_at _ tol 0 m 1 _ [] _ (by intro j hj; omega) hpe (by omega)

/-- Claim C10: invoked with `x0 = 0`, the modified secant perturbation is
`delta * 0 = 0`, so `f(x + delta*x) - f(x) = 0 < 1e-14` and the method
raises the division-by-zero singularity error on the first loop pass (for
any positive iteration budget); a zero starting guess can never produce a
result (a zero budget raises the maximum-iterations error instead). -/
theorem modified_secant_zero_guess :
    (∀ (f : ℚ → ℚ) (delta tol : ℚ) (m : ℕ), 1 ≤ m →
       modified_secant_method f 0 delta tol m = .error .singularity) ∧
    (∀ (f : ℚ → ℚ) (delta tol : ℚ) (m : ℕ) (res : SolveResult ModifiedSecantRecord),
       modified_secant_method f 0 delta tol m ≠ .ok res) := by
  constructor
  · exact fun f delta tol m hm => modified_secant_zero_aux f delta tol m hm
  · intro f delta tol m res h
    cases m with
    | zero => simp [modified_secant_method, runLoop] at h
    | succ n =>
      rw [modified_secant_zero_aux f delta tol (n + 1) (by omega)] at h
      cases h

/-- Claim C10 witness: `f(x) = x + 1` (evaluable at 0) with the default
`delta = 1/100` and 5 allowed iterations fails with the singularity error. -/
theorem modified_secant_zero_guess_witness :
    modified_secant_method (fun x : ℚ => x + 1) 0 (1 / 100) 1 5 = .error .singularity :=
  modified_secant_zero_guess.1 (fun x : ℚ => x + 1) (1 / 100) 1 5 (by norm_num)

/-- Claim C9: each solve function is a deterministic function of its
arguments — in this pure model, running a method twice on the same inputs
is the same term, and more strongly the outcome (result, trace and error
kind alike) depends only on the numeric behaviour of the evaluated
expression: pointwise-equal functions yield identical outcomes. -/
theorem methods_deterministic :
    (∀ (f1 f2 : ℚ → ℚ) (a b tol : ℚ) (m : ℕ), (∀ x, f1 x = f2 x) →
       bisection_method f1 a b tol m = bisection_method f2 a b tol m) ∧
    (∀ (f1 f2 : ℚ → ℚ) (a b tol : ℚ) (m : ℕ), (∀ x, f1 x = f2 x) →
       regula_falsi_method f1 a b tol m = regula_falsi_method f2 a b tol m) ∧
    (∀ (f1 f2 : ℚ → ℚ) (x0 x1 tol : ℚ) (m : ℕ), (∀ x, f1 x = f2 x) →
       secant_method f1 x0 x1 tol m = secant_method f2 x0 x1 tol m) ∧
    (∀ (f1 f2 : ℚ → ℚ) (x0 tol : ℚ) (m : ℕ), (∀ x, f1 x = f2 x) →
       newton_raphson_method f1 x0 tol m = newton_raphson_method f2 x0 tol m) ∧
    (∀ (f1 f2 g1 g2 : ℚ → ℚ) (x0 tol : ℚ) (m : ℕ),
       (∀ x, f1 x = f2 x) → (∀ x, g1 x = g2 x) →
       fixed_point_method f1 g1 x0 tol m = fixed_point_method f2 g2 x0 tol m) ∧
    (∀ (f1 f2 : ℚ → ℚ) (x0 delta tol : ℚ) (m : ℕ), (∀ x, f1 x = f2 x) →
       modified_secant_method f1 x0 delta tol m = modified_secant_method f2 x0 delta tol m) := by
  refine ⟨?_, ?_, ?_, ?_, ?_, ?_⟩
  · intro f1 f2 a b tol m h
    rw [funext h]
  · intro f1 f2 a b tol m h
    rw [funext h]
  · intro f1 f2 x0 x1 tol m h
    rw [funext h]
  · intro f1 f2 x0 tol m h
    rw [funext h]
  · intro f1 f2 g1 g2 x0 tol m hf hg
    rw [funext hf, funext hg]
  · intro f1 f2 x0 delta tol m h
    rw [funext h]

/-- Claim C9 witness: two syntactically different expressions with the
same values (`x` and `x * 1`) drive bisection to identical outcomes. -/
theorem methods_deterministic_witness :
    bisection_method (fun x : ℚ => x) 0 1 1 5 =
      bisection_method (fun x : ℚ => x * 1) 0 1 1 5 :=
  methods_deterministic.1 (fun x : ℚ => x) (fun x : ℚ => x * 1) 0 1 1 5
    (fun x => (mul_one x).symm)

/-- An identifier outside the keys of both namespace dicts resolves to
nothing — Python's NameError, which `safe_eval` wraps into its
`ValueError`. -/
theorem lookupName_eq_none (xv : ℚ) (s : String) (h : s ∉ evalAllowedNames) :
    lookupName xv s = none := by
  simp only [evalAllowedNames, specAllowedNames, List.mem_cons, List.not_mem_nil, or_false,
    not_or] at h
  obtain ⟨hb, hm, h1, h2, h3, h4, h5, h6, h7, h8, h9, h10, h11⟩ := h
  simp [lookupName, lookupLocal, lookupGlobal, hb, hm, h1, h2, h3, h4, h5, h6, h7, h8, h9,
    h10, h11]

/-- A strictly evaluated identifier that neither namespace dict binds
forces evaluation to fail: whatever the fuel, the result is never a value
— the lookup raises NameError unless an earlier strict subterm already
failed or exhausted the fuel. -/
theorem strict_unknown_never_ok (F : String → ℚ → Option ℚ) (xv : ℚ) (s : String)
    (hfree : s ∉ evalAllowedNames) :
    ∀ (e : Expr), s ∈ strictIdents e →
      ∀ (fuel : ℕ) (v : PyVal), evalE F xv fuel .top e ≠ some (.ok v) := by
  intro e
  induction e with
  | num q => intro hmem; simp [strictIdents] at hmem
  | name t =>
    intro hmem fuel v
    simp only [strictIdents, List.mem_singleton] at hmem
    subst hmem
    cases fuel with
    | zero => simp [evalE]
    | succ n => simp [evalE, resolveName, lookupName_eq_none xv s hfree]
  | attr e1 fld ih =>
    intro hmem fuel v
    simp only [strictIdents] at hmem
    cases fuel with
    | zero => simp [evalE]
    | succ n =>
      cases h1 : evalE F xv n .top e1 with
      | none => simp [evalE, h1]
      | some r =>
        cases r with
        | error u => simp [evalE, h1]
        | ok v1 => exact absurd h1 (ih hmem n v1)
  | call fn arg ih1 ih2 =>
    intro hmem fuel v
    simp only [strictIdents, List.mem_append] at hmem
    cases fuel with
    | zero => simp [evalE]
    | succ n =>
      rcases hmem with hm | hm
      · cases h1 : evalE F xv n .top fn with
        | none => simp [evalE, h1]
        | some r =>
          cases r with
          | error u => simp [evalE, h1]
          | ok vf => exact absurd h1 (ih1 hm n vf)
      · cases h1 : evalE F xv n .top fn with
        | none => simp [evalE, h1]
        | some r =>
          cases r with
          | error u => simp [evalE, h1]
          | ok vf =>
            cases h2 : evalE F xv n .top arg with
            | none => simp [evalE, h1, h2]
            | some r2 =>
              cases r2 with
              | error u => simp [evalE, h1, h2]
              | ok va => exact absurd h2 (ih2 hm n va)
  | call2 fn a1 a2 ih1 ih2 ih3 =>
    intro hmem fuel v
    simp only [strictIdents, List.mem_append] at hmem
    cases fuel with
    | zero => simp [evalE]
    | succ n =>
      rcases hmem with hm | hm | hm
      · cases h1 : evalE F xv n .top fn with
        | none => simp [evalE, h1]
        | some r =>
          cases r with
          | error u => simp [evalE, h1]
          | ok vf => exact absurd h1 (ih1 hm n vf)
      · cases h1 : evalE F xv n .top fn with
        | none => simp [evalE, h1]
        | some r =>
          cases r with
          | error u => simp [evalE, h1]
          | ok vf =>
            cases h2 : evalE F xv n .top a1 with
            | none => simp [evalE, h1, h2]
            | some r2 =>
              cases r2 with
              | error u => simp [evalE, h1, h2]
              | ok v1 => exact absurd h2 (ih2 hm n v1)
      · cases h1 : evalE F xv n .top fn with
        | none => simp [evalE, h1]
        | some r =>
          cases r with
          | error u => simp [evalE, h1]
          | ok vf =>
            cases h2 : evalE F xv n .top a1 with
            | none => simp [evalE, h1, h2]
            | some r2 =>
              cases r2 with
              | error u => simp [evalE, h1, h2]
              | ok v1 =>
                cases h3 : evalE F xv n .top a2 with
                | none => simp [evalE, h1, h2, h3]
                | some r3 =>
                  cases r3 with
                  | error u => simp [evalE, h1, h2, h3]
                  | ok v2 => exact absurd h3 (ih3 hm n v2)
  | neg a ih =>
    intro hmem fuel v
    simp only [strictIdents] at hmem
    cases fuel with
    | zero => simp [evalE]
    | succ n =>
      cases h1 : evalE F xv n .top a with
      | none => simp [evalE, h1]
      | some r =>
        cases r with
        | error u => simp [evalE, h1]
        | ok va => exact absurd h1 (ih hmem n va)
  | add a b ih1 ih2 =>
    intro hmem fuel v
    simp only [strictIdents, List.mem_append] at hmem
    cases fuel with
    | zero => simp [evalE]
    | succ n =>
      rcases hmem with hm | hm
      · cases h1 : evalE F xv n .top a with
        | none => simp [evalE, h1]
        | some r =>
          cases r with
          | error u => simp [evalE, h1]
          | ok va => exact absurd h1 (ih1 hm n va)
      · cases h1 : evalE F xv n .top a with
        | none => simp [evalE, h1]
        | some r =>
          cases r with
          | error u => simp [evalE, h1]
          | ok va =>
            cases h2 : evalE F xv n .top b with
            | none => simp [evalE, h1, h2]
            | some r2 =>
              cases r2 with
              | error u => simp [evalE, h1, h2]
              | ok vb => exact absurd h2 (ih2 hm n vb)
  | sub a b ih1 ih2 =>
    intro hmem fuel v
    simp only [strictIdents, List.mem_append] at hmem
    cases fuel with
    | zero => simp [evalE]
    | succ n =>
      rcases hmem with hm | hm
      · cases h1 : evalE F xv n .top a with
        | none => simp [evalE, h1]
        | some r =>
          cases r with
          | error u => simp [evalE, h1]
          | ok va => exact absurd h1 (ih1 hm n va)
      · cases h1 : evalE F xv n .top a with
        | none => simp [evalE, h1]
        | some r =>
          cases r with
          | error u => simp [evalE, h1]
          | ok va =>
            cases h2 : evalE F xv n .top b with
            | none => simp [evalE, h1, h2]
            | some r2 =>
              cases r2 with
              | error u => simp [evalE, h1, h2]
              | ok vb => exact absurd h2 (ih2 hm n vb)
  | mul a b ih1 ih2 =>
    intro hmem fuel v
    simp only [strictIdents, List.mem_append] at hmem
    cases fuel with
    | zero => simp [evalE]
    | succ n =>
      rcases hmem with hm | hm
      · cases h1 : evalE F xv n .top a with
        | none => simp [evalE, h1]
        | some r =>
          cases r with
          | error u => simp [evalE, h1]
          | ok va => exact absurd h1 (ih1 hm n va)
      · cases h1 : evalE F xv n .top a with
        | none => simp [evalE, h1]
        | some r =>
          cases r with
          | error u => simp [evalE, h1]
          | ok va =>
            cases h2 : evalE F xv n .top b with
            | none => simp [evalE, h1, h2]
            | some r2 =>
              cases r2 with
              | error u => simp [evalE, h1, h2]
              | ok vb => exact absurd h2 (ih2 hm n vb)
  | div a b ih1 ih2 =>
    intro hmem fuel v
    simp only [strictIdents, List.mem_append] at hmem
    cases fuel with
    | zero => simp [evalE]
    | succ n =>
      rcases hmem with hm | hm
      · cases h1 : evalE F xv n .top a with
        | none => simp [evalE, h1]
        | some r =>
          cases r with
          | error u => simp [evalE, h1]
          | ok va => exact absurd h1 (ih1 hm n va)
      · cases h1 : evalE F xv n .top a with
        | none => simp [evalE, h1]
        | some r =>
          cases r with
          | error u => simp [evalE, h1]
          | ok va =>
            cases h2 : evalE F xv n .top b with
            | none => simp [evalE, h1, h2]
            | some r2 =>
              cases r2 with
              | error u => simp [evalE, h1, h2]
              | ok vb => exact absurd h2 (ih2 hm n vb)
  | powOp a b ih1 ih2 =>
    intro hmem fuel v
    simp only [strictIdents, List.mem_append] at hmem
    cases fuel with
    | zero => simp [evalE]
    | succ n =>
      rcases hmem with hm | hm
      · cases h1 : evalE F xv n .top a with
        | none => simp [evalE, h1]
        | some r =>
          cases r with
          | error u => simp [evalE, h1]
          | ok va => exact absurd h1 (ih1 hm n va)
      · cases h1 : evalE F xv n .top a with
        | none => simp [evalE, h1]
        | some r =>
          cases r with
          | error u => simp [evalE, h1]
          | ok va =>
            cases h2 : evalE F xv n .top b with
            | none => simp [evalE, h1, h2]
            | some r2 =>
              cases r2 with
              | error u => simp [evalE, h1, h2]
              | ok vb => exact absurd h2 (ih2 hm n vb)
  | orE a b ih1 _ =>
    intro hmem fuel v
    simp only [strictIdents] at hmem
    cases fuel with
    | zero => simp [evalE]
    | succ n =>
      cases h1 : evalE F xv n .top a with
      | none => simp [evalE, h1]
      | some r =>
        cases r with
        | error u => simp [evalE, h1]
        | ok va => exact absurd h1 (ih1 hmem n va)
  | andE a b ih1 _ =>
    intro hmem fuel v
    simp only [strictIdents] at hmem
    cases fuel with
    | zero => simp [evalE]
    | succ n =>
      cases h1 : evalE F xv n .top a with
      | none => simp [evalE, h1]
      | some r =>
        cases r with
        | error u => simp [evalE, h1]
        | ok va => exact absurd h1 (ih1 hmem n va)
  | tern c a b ihc _ _ =>
    intro hmem fuel v
    simp only [strictIdents] at hmem
    cases fuel with
    | zero => simp [evalE]
    | succ n =>
      cases h1 : evalE F xv n .top c with
      | none => simp [evalE, h1]
      | some r =>
        cases r with
        | error u => simp [evalE, h1]
        | ok vc => exact absurd h1 (ihc hmem n vc)
  | lam p body _ =>
    intro hmem
    simp [strictIdents] at hmem

/-- Claim C5 (amended): `safe_eval` fails with the evaluation error
whenever the expression *strictly evaluates* any bare identifier outside
the set the two namespace dicts resolve — the variable `x`, the module
`math`, the functions `sin, cos, tan, exp, log, sqrt, abs, pow`, the
constants `pi, e`, and `__builtins__`; no other identifier is reachable.
The spec's fixed set needs three qualifications forced by the source:
`math` (the locals dict binds the whole `math` module) and `__builtins__`
(the globals dict binds it to `None`, so it evaluates to `None` without
raising) are resolvable, and an identifier referenced only in a position
Python never evaluates — the skipped operand of a short-circuit `or`/`and`,
the unselected branch of a conditional expression, or the body of an
uncalled lambda — does not make evaluation fail. -/
theorem safe_eval_rejects_unknown_names :
    (∀ (F : String → ℚ → Option ℚ) (xv : ℚ) (e : Expr) (s : String),
       s ∈ strictIdents e → s ∉ evalAllowedNames →
       ∀ (fuel : ℕ) (v : PyVal), evalE F xv fuel .top e ≠ some (.ok v)) ∧
    (∀ (F : String → ℚ → Option ℚ) (xv : ℚ) (fuel : ℕ),
       evalE F xv (fuel + 1) .top (.name ("__builtins__")) = some (.ok .pynone)) ∧
    (∀ (F : String → ℚ → Option ℚ) (xv : ℚ) (s : String) (fuel : ℕ),
       evalE F xv (fuel + 2) .top (.orE (.num 1) (.name s)) = some (.ok (.num 1))) ∧
    (∀ (F : String → ℚ → Option ℚ) (xv : ℚ) (s : String) (fuel : ℕ),
       evalE F xv (fuel + 2) .top (.andE (.num 0) (.name s)) = some (.ok (.num 0))) ∧
    (∀ (F : String → ℚ → Option ℚ) (xv : ℚ) (s : String) (fuel : ℕ),
       evalE F xv (fuel + 2) .top (.tern (.num 1) (.num 5) (.name s)) = some (.ok (.num 5))) ∧
    (∀ (F : String → ℚ → Option ℚ) (xv : ℚ) (p s : String) (fuel : ℕ),
       evalE F xv (fuel + 1) .top (.lam p (.name s)) =
         some (.ok (.closure [] p (.name s)))) := by
  refine ⟨?_, ?_, ?_, ?_, ?_, ?_⟩
  · intro F xv e s hmem hfree fuel v
    exact strict_unknown_never_ok F xv s hfree e hmem fuel v
  · intro F xv fuel
    rfl
  · intro F xv s fuel
    norm_num [evalE, truthy]
  · intro F xv s fuel
    norm_num [evalE, truthy]
  · intro F xv s fuel
    norm_num [evalE, truthy]
  · intro F xv p s fuel
    rfl

/-- Claim C5 counterexample: the identifier `math` lies outside the
permitted set the spec lists, yet `safe_eval` evaluates the expression
`math` successfully (to the module object) instead of failing with an
evaluation error. -/
theorem safe_eval_math_reachable :
    ("math" ∉ specAllowedNames) ∧
    evalE (fun _ _ => none) 0 1 .top (.name ("math")) = some (.ok (.module ("math"))) :=
  ⟨by decide, rfl⟩

/-- Claim C5 witness: the unknown identifier `foo` is strictly referenced
by the expression `foo` and is outside the resolvable set, so no amount of
fuel evaluates it to a value. -/
theorem safe_eval_rejects_unknown_names_witness :
    ("foo" ∈ strictIdents (.name ("foo")) ∧ "foo" ∉ evalAllowedNames) ∧
    evalE (fun _ _ => none) 0 5 .top (.name ("foo")) ≠ some (.ok (.num 0)) :=
  ⟨⟨by decide, by decide⟩,
    safe_eval_rejects_unknown_names.1 (fun _ _ => none) 0 (.name ("foo")) ("foo")
      (by decide) (by decide) 5 (.num 0)⟩


end ZOF
